import Mathlib

/-!
# Verification of the hurl parameter grammar and response pipeline

Shallow embedding of the command-line HTTP client under `src/wasm/hurl`:
the response formatter `handle_response` and the method selection from
`src/wasm/hurl/src/main.rs`, and the parameter grammar / classifier /
request builder declared in `src/wasm/hurl/src/app.rs` (whose bodies are
modelled from the specification, as the file is truncated after the
`App` struct).  External crates (`serde_json`, `heck`, `reqwest`) are
modelled by their documented behaviour at the interface points the code
uses.
-/

namespace Hurl

/-! ## JSON values (model of `serde_json::Value`)

`serde_json` without the `preserve_order` feature stores object members
in a `BTreeMap<String, Value>`: keys sorted, a later duplicate key
overwriting an earlier one.  Numbers are kept as their literal token,
which is all the claims need. -/

inductive Json where
  | null : Json
  | bool (b : Bool) : Json
  | num (lit : String) : Json
  | str (s : String) : Json
  | arr (items : List Json) : Json
  | obj (fields : List (String × Json)) : Json

/-- `BTreeMap` insertion: keep keys strictly sorted, last write wins. -/
def insertField (k : String) (v : Json) : List (String × Json) → List (String × Json)
  | [] => [(k, v)]
  | (k', v') :: rest =>
    if k < k' then (k, v) :: (k', v') :: rest
    else if k = k' then (k, v) :: rest
    else (k', v') :: insertField k v rest

/-! ### JSON parser (model of `serde_json::from_str`)

Recursive-descent parser over the character list, fuelled for
termination.  Running out of fuel reports a parse failure, which is
sound for every claim proved below (no claim asserts parse success for
an unbounded input). -/

def isJsonWs (c : Char) : Bool :=
  c = ' ' || c = '\t' || c = '\n' || c = '\r'

def skipWs : List Char → List Char
  | [] => []
  | c :: cs => if isJsonWs c then skipWs cs else c :: cs

def hexVal (c : Char) : Option Nat :=
  if '0' ≤ c ∧ c ≤ '9' then some (c.toNat - '0'.toNat)
  else if 'a' ≤ c ∧ c ≤ 'f' then some (c.toNat - 'a'.toNat + 10)
  else if 'A' ≤ c ∧ c ≤ 'F' then some (c.toNat - 'A'.toNat + 10)
  else none

/-- Body of a JSON string literal, after the opening quote. -/
def parseStrAux (acc : List Char) : List Char → Option (String × List Char)
  | [] => none
  | '"' :: rest => some (String.mk acc.reverse, rest)
  | '\\' :: 'n' :: rest => parseStrAux ('\n' :: acc) rest
  | '\\' :: 't' :: rest => parseStrAux ('\t' :: acc) rest
  | '\\' :: 'r' :: rest => parseStrAux ('\r' :: acc) rest
  | '\\' :: 'b' :: rest => parseStrAux (Char.ofNat 0x08 :: acc) rest
  | '\\' :: 'f' :: rest => parseStrAux (Char.ofNat 0x0C :: acc) rest
  | '\\' :: '"' :: rest => parseStrAux ('"' :: acc) rest
  | '\\' :: '\\' :: rest => parseStrAux ('\\' :: acc) rest
  | '\\' :: '/' :: rest => parseStrAux ('/' :: acc) rest
  | '\\' :: 'u' :: h1 :: h2 :: h3 :: h4 :: rest =>
    match hexVal h1, hexVal h2, hexVal h3, hexVal h4 with
    | some a, some b, some c, some d =>
      parseStrAux (Char.ofNat (((a * 16 + b) * 16 + c) * 16 + d) :: acc) rest
    | _, _, _, _ => none
  | '\\' :: _ => none
  | c :: rest => if c.toNat < 0x20 then none else parseStrAux (c :: acc) rest

def takeDigits : List Char → List Char × List Char
  | [] => ([], [])
  | c :: cs =>
    if c.isDigit then
      let (ds, rest) := takeDigits cs
      (c :: ds, rest)
    else ([], c :: cs)

/-- JSON number token: sign, integer part (no leading zeros), optional
fraction and exponent; the literal is kept verbatim. -/
def parseNumber (cs : List Char) : Option (String × List Char) :=
  let (sign, cs₁) := match cs with
    | '-' :: rest => (['-'], rest)
    | _ => (([] : List Char), cs)
  match cs₁ with
  | [] => none
  | c :: rest =>
    if c = '0' then
      let (frac, cs₂) := match rest with
        | '.' :: r =>
          match takeDigits r with
          | ([], _) => (none, rest)
          | (ds, r') => (some ('.' :: ds), r')
        | _ => (none, rest)
      match frac, cs₂ with
      | none, _ =>
        match rest with
        | '.' :: _ => none
        | _ => parseExpPart (sign ++ ['0']) rest
      | some f, r => parseExpPart (sign ++ ['0'] ++ f) r
    else if c.isDigit then
      let (ds, cs₂) := takeDigits rest
      let intPart := sign ++ (c :: ds)
      match cs₂ with
      | '.' :: r =>
        match takeDigits r with
        | ([], _) => none
        | (fs, r') => parseExpPart (intPart ++ ('.' :: fs)) r'
      | _ => parseExpPart intPart cs₂
    else none
where
  parseExpPart (litSoFar : List Char) (cs : List Char) : Option (String × List Char) :=
    match cs with
    | 'e' :: rest => parseExpDigits litSoFar ['e'] rest
    | 'E' :: rest => parseExpDigits litSoFar ['E'] rest
    | _ => some (String.mk litSoFar, cs)
  parseExpDigits (litSoFar : List Char) (e : List Char) (cs : List Char) :
      Option (String × List Char) :=
    let (sgn, cs₁) := match cs with
      | '+' :: rest => ((['+'] : List Char), rest)
      | '-' :: rest => ((['-'] : List Char), rest)
      | _ => (([] : List Char), cs)
    match takeDigits cs₁ with
    | ([], _) => none
    | (ds, rest) => some (String.mk (litSoFar ++ e ++ sgn ++ ds), rest)

mutual

/-- One JSON value, leading whitespace allowed. -/
def parseValue : Nat → List Char → Option (Json × List Char)
  | 0, _ => none
  | fuel + 1, cs =>
    match skipWs cs with
    | 'n' :: 'u' :: 'l' :: 'l' :: rest => some (.null, rest)
    | 't' :: 'r' :: 'u' :: 'e' :: rest => some (.bool true, rest)
    | 'f' :: 'a' :: 'l' :: 's' :: 'e' :: rest => some (.bool false, rest)
    | '"' :: rest =>
      match parseStrAux [] rest with
      | some (s, r) => some (.str s, r)
      | none => none
    | '[' :: rest =>
      match skipWs rest with
      | ']' :: r => some (.arr [], r)
      | r => parseElems fuel r []
    | '{' :: rest =>
      match skipWs rest with
      | '}' :: r => some (.obj [], r)
      | r => parseMembers fuel r []
    | cs' =>
      match parseNumber cs' with
      | some (lit, r) => some (.num lit, r)
      | none => none

/-- Array elements after `[`, at least one element expected. -/
def parseElems : Nat → List Char → List Json → Option (Json × List Char)
  | 0, _, _ => none
  | fuel + 1, cs, acc =>
    match parseValue fuel cs with
    | none => none
    | some (v, rest) =>
      match skipWs rest with
      | ',' :: r => parseElems fuel r (v :: acc)
      | ']' :: r => some (.arr (v :: acc).reverse, r)
      | _ => none

/-- Object members after `{`, at least one member expected; duplicate
keys resolved last-write-wins into a sorted map, as `BTreeMap` does. -/
def parseMembers : Nat → List Char → List (String × Json) →
    Option (Json × List Char)
  | 0, _, _ => none
  | fuel + 1, cs, acc =>
    match skipWs cs with
    | '"' :: rest =>
      match parseStrAux [] rest with
      | none => none
      | some (k, r₁) =>
        match skipWs r₁ with
        | ':' :: r₂ =>
          match parseValue fuel r₂ with
          | none => none
          | some (v, r₃) =>
            match skipWs r₃ with
            | ',' :: r₄ => parseMembers fuel r₄ (insertField k v acc)
            | '}' :: r₄ => some (.obj (insertField k v acc), r₄)
            | _ => none
        | _ => none
    | _ => none

end

/-- Model of `serde_json::from_str::<Value>`: parse one value and require
only trailing whitespace after it. -/
def parseJson (s : String) : Option Json :=
  match parseValue (s.data.length + 1) s.data with
  | some (v, rest) => if skipWs rest = [] then some v else none
  | none => none

/-- Model of `serde_json::from_str::<BTreeMap<String, Value>>`
(`OrderedJson` in `main.rs`): succeeds exactly when the input is a JSON
object at top level, yielding its sorted-key member map. -/
def fromStrOrdered (s : String) : Option (List (String × Json)) :=
  match parseJson s with
  | some (.obj fields) => some fields
  | _ => none

/-! ### JSON pretty printer (model of `serde_json::to_string_pretty`)

Two-space indentation; strings escaped with the short escapes for
`"`, `\\`, backspace, form feed, `\n`, `\r`, `\t` and `\u00XX` for the
remaining control characters.  Serialising a string-keyed map never
fails, so the model is a total function. -/

def hexDigit (n : Nat) : Char :=
  if n < 10 then Char.ofNat ('0'.toNat + n) else Char.ofNat ('a'.toNat + n - 10)

def escChar (c : Char) : List Char :=
  if c = '"' then ['\\', '"']
  else if c = '\\' then ['\\', '\\']
  else if c = '\n' then ['\\', 'n']
  else if c = '\r' then ['\\', 'r']
  else if c = '\t' then ['\\', 't']
  else if c.toNat = 0x08 then ['\\', 'b']
  else if c.toNat = 0x0C then ['\\', 'f']
  else if c.toNat < 0x20 then
    ['\\', 'u', '0', '0', hexDigit (c.toNat / 16), hexDigit (c.toNat % 16)]
  else [c]

def quoteStr (s : String) : String :=
  "\"" ++ String.mk (s.data.foldr (fun c acc => escChar c ++ acc) []) ++ "\""

/-- `n` spaces of indentation. -/
def sp (n : Nat) : String :=
  String.mk (List.replicate n ' ')

mutual

def prettyVal (ind : Nat) : Json → String
  | .null => "null"
  | .bool true => "true"
  | .bool false => "false"
  | .num lit => lit
  | .str s => quoteStr s
  | .arr xs =>
    match prettyList (ind + 2) xs with
    | [] => "[]"
    | item :: items =>
      "[\n" ++ String.intercalate ",\n"
          ((item :: items).map (fun t => sp (ind + 2) ++ t))
        ++ "\n" ++ sp ind ++ "]"
  | .obj fs =>
    match prettyFieldList (ind + 2) fs with
    | [] => "\x7b\x7d"
    | item :: items =>
      "\x7b\n" ++ String.intercalate ",\n"
          ((item :: items).map (fun t => sp (ind + 2) ++ t))
        ++ "\n" ++ sp ind ++ "\x7d"

def prettyList (ind : Nat) : List Json → List String
  | [] => []
  | x :: xs => prettyVal ind x :: prettyList ind xs

def prettyFieldList (ind : Nat) : List (String × Json) → List String
  | [] => []
  | (k, v) :: fs => (quoteStr k ++ ": " ++ prettyVal ind v) :: prettyFieldList ind fs

end

/-- `serde_json::to_string_pretty` applied to the `OrderedJson` map. -/
def toStringPretty (fields : List (String × Json)) : String :=
  prettyVal 0 (.obj fields)

/-! ## Title-casing of header names (model of `heck::TitleCase`)

`to_title_case` splits the input into words (maximal alphanumeric runs,
further split at a lowercase-to-uppercase boundary and before the last
of a run of uppercase letters that is followed by a lowercase one),
uppercases the first character of each word, lowercases the rest, and
joins the words with single spaces. -/

def splitRunsAux (cur : List Char) (acc : List (List Char)) :
    List Char → List (List Char)
  | [] => (if cur.isEmpty then acc else cur.reverse :: acc).reverse
  | c :: cs =>
    if c.isAlphanum then splitRunsAux (c :: cur) acc cs
    else splitRunsAux [] (if cur.isEmpty then acc else cur.reverse :: acc) cs

/-- Maximal alphanumeric runs of a character list. -/
def splitRuns (cs : List Char) : List (List Char) :=
  splitRunsAux [] [] cs

def camelSplitAux (cur : List Char) (acc : List (List Char)) :
    List Char → List (List Char)
  | [] => ((if cur.isEmpty then acc else cur.reverse :: acc)).reverse
  | c :: cs =>
    match cur with
    | [] => camelSplitAux [c] acc cs
    | p :: _ =>
      if p.isLower && c.isUpper then camelSplitAux [c] (cur.reverse :: acc) cs
      else if p.isUpper && c.isUpper &&
          (match cs with | d :: _ => d.isLower | [] => false) then
        camelSplitAux [c] (cur.reverse :: acc) cs
      else camelSplitAux (c :: cur) acc cs

/-- Case-boundary splitting inside one alphanumeric run. -/
def camelSplit (cs : List Char) : List (List Char) :=
  camelSplitAux [] [] cs

def capitalizeWord : List Char → List Char
  | [] => []
  | c :: cs => c.toUpper :: cs.map Char.toLower

/-- Model of `heck::TitleCase::to_title_case`. -/
def toTitleCase (s : String) : String :=
  String.intercalate " "
    (((splitRuns s.data).foldr (fun run acc => camelSplit run ++ acc) []).map
      (fun w => String.mk (capitalizeWord w)))

/-- `main.rs`: `key.as_str().to_title_case().replace(' ', "-")`. -/
def niceKey (k : String) : String :=
  String.mk ((toTitleCase k).data.map (fun c => if c = ' ' then '-' else c))

/-! ## Response formatter (`handle_response` in `src/wasm/hurl/src/main.rs`) -/

/-- Rust `String::len`: the UTF-8 byte length. -/
def utf8Len (s : String) : Nat :=
  s.data.foldl (fun n c => n + c.utf8Size) 0

/-- The response shape `handle_response` consumes from `reqwest`:
`version()`'s debug rendering, `status().as_u16()`,
`status().canonical_reason()`, the wire-order header pairs,
`content_length()`, and the decoded body text `resp.text()?`. -/
structure Response where
  version : String
  status : Nat
  reason : Option String
  headers : List (String × String)
  contentLength : Option Nat
  body : String

/-- `format!("{:?} {} {}\n", resp.version(), status.as_u16(),
status.canonical_reason().unwrap_or("Unknown"))`. -/
def statusLine (r : Response) : String :=
  r.version ++ " " ++ toString r.status ++ " " ++ r.reason.getD "Unknown" ++ "\n"

/-- The rendered header lines in wire order:
`format!("{}: {}", nice_key, value)` for each header pair. -/
def headerLines (r : Response) : List String :=
  r.headers.map (fun kv => niceKey kv.1 ++ ": " ++ kv.2)

/-- `match resp.content_length() { Some(len) => len, None => result.len() }`. -/
def contentLengthVal (r : Response) : Nat :=
  match r.contentLength with
  | some len => len
  | none => utf8Len r.body

/-- The header lines with the synthesized `Content-Length` entry
appended, before sorting. -/
def allLines (r : Response) : List String :=
  headerLines r ++ ["Content-Length: " ++ toString (contentLengthVal r)]

/-- Rust's `Ord` on `String`: lexicographic comparison of the UTF-8
bytes, which on `Char` sequences is lexicographic comparison of the
code points. -/
def charListLe : List Char → List Char → Bool
  | [], _ => true
  | _ :: _, [] => false
  | a :: as, b :: bs =>
    if a < b then true
    else if b < a then false
    else charListLe as bs

/-- `a <= b` for Rust `String`s. -/
def strLe (a b : String) : Bool :=
  charListLe a.data b.data

/-- `strLe` as a relation, for the sorting lemmas. -/
def strLeP (a b : String) : Prop :=
  strLe a b = true

instance : DecidableRel strLeP := fun a b => instDecidableEqBool (strLe a b) true

/-- `headers.sort()`: `Vec<String>::sort` is a stable sort under
`String`'s lexicographic order; since equal elements are identical
strings, any correct sort yields the same list. -/
def sortedLines (r : Response) : List String :=
  List.insertionSort strLeP (allLines r)

/-- The body stage: parse into `OrderedJson` and pretty-print on
success, print the raw decoded text on failure.  Serialising the
string-keyed map cannot fail, so the stage is total. -/
def bodyOut (body : String) : String :=
  match fromStrOrdered body with
  | some fields => toStringPretty fields
  | none => body

/-- Everything `handle_response` prints: the status line, the sorted
header lines joined with newlines (first `println!`), then the body
stage's output (second `println!`). -/
def handle_response (r : Response) : String :=
  statusLine r ++ String.intercalate "\n" (sortedLines r) ++ "\n"
    ++ bodyOut r.body ++ "\n"

/-! ## Parameter grammar and classifier

`src/wasm/hurl/src/app.rs` declares `pub parameters: Vec<Parameter>`
with `#[structopt(parse(try_from_str = parse_param))]`, but the file is
truncated before the bodies of `Parameter` and `parse_param`, and the
`errors` and `client` modules are absent from the sources.  The
definitions below are therefore modelled from the specification
(spec §3, §4.1, §4.2, §4.3, §7). -/

/-- Modelled from the spec: the closed error-kind enum of §7
(`MalformedParameter`, `FileReadError`, `InvalidJson`,
`FileUploadRequiresForm`), replacing the missing `errors` module. -/
inductive HurlError where
  | malformedParameter (arg : String) : HurlError
  | fileReadError (path : String) : HurlError
  | invalidJson (key : String) : HurlError
  | fileUploadRequiresForm : HurlError
  deriving Repr, DecidableEq

/-- The seven parameter kinds of the separator grammar. -/
inductive SepKind where
  | rawJsonFromFile : SepKind
  | rawJson : SepKind
  | dataFromFile : SepKind
  | query : SepKind
  | fileUpload : SepKind
  | header : SepKind
  | dataField : SepKind
  deriving Repr, DecidableEq

/-- Modelled from the spec: the §4.1 precedence table, longest matching
separator first: `:=@`, `:=`, `=@`, `==`, `@`, `:`, `=`. -/
def sepTable : List (String × SepKind) :=
  [(":=@", .rawJsonFromFile), (":=", .rawJson), ("=@", .dataFromFile),
   ("==", .query), ("@", .fileUpload), (":", .header), ("=", .dataField)]

/-- Rust `str::find`: index of the first occurrence of `p` in `cs`. -/
def findSub (p : List Char) : List Char → Option Nat
  | [] => if p.isPrefixOf [] then some 0 else none
  | c :: cs =>
    if p.isPrefixOf (c :: cs) then some 0
    else (findSub p cs).map (· + 1)

/-- The first entry of the table whose separator occurs in the
argument, with the index of that separator's first occurrence. -/
def selectSepAux : List (String × SepKind) → List Char →
    Option (String × SepKind × Nat)
  | [], _ => none
  | (sep, kind) :: rest, cs =>
    match findSub sep.data cs with
    | some idx => some (sep, kind, idx)
    | none => selectSepAux rest cs

def selectSep (cs : List Char) : Option (String × SepKind × Nat) :=
  selectSepAux sepTable cs

/-- Modelled from the spec: §4.1's classification of one argument.  For
each candidate separator in precedence order, search for its first
occurrence; the first separator found splits the argument into the key
(text before) and the value (text after).  No separator, or an empty
key, is a `MalformedParameter` error naming the argument. -/
def parse_param_split (s : String) :
    Except HurlError (SepKind × String × String) :=
  match selectSep s.data with
  | none => .error (.malformedParameter s)
  | some (sep, kind, idx) =>
    if idx = 0 then .error (.malformedParameter s)
    else .ok (kind, String.mk (s.data.take idx),
      String.mk (s.data.drop (idx + sep.data.length)))

/-- Modelled from the spec: the typed `Parameter` of §3, seven variants
each holding the key and a value payload. -/
inductive Parameter where
  | header (key value : String) : Parameter
  | fileUpload (key filename : String) : Parameter
  | query (key value : String) : Parameter
  | dataField (key value : String) : Parameter
  | dataFieldFromFile (key filename : String) : Parameter
  | rawJsonField (key : String) (json : Json) : Parameter
  | rawJsonFieldFromFile (key filename : String) : Parameter

/-- The data parameters: the four kinds §4.3 folds into the body map,
modelling the `is_data` method `main.rs` calls on `Parameter`. -/
def Parameter.is_data : Parameter → Bool
  | .dataField _ _ => true
  | .dataFieldFromFile _ _ => true
  | .rawJsonField _ _ => true
  | .rawJsonFieldFromFile _ _ => true
  | _ => false

/-- Modelled from the spec: the §4.2 classifier, building the typed
`Parameter` from (kind, key, raw-value).  File reads go through the
abstract read-only file system `fs`; a failed read is `FileReadError`
naming the path, a failed JSON parse of a `RawJsonField*` text is
`InvalidJson` naming the key, and `FileUpload` succeeds structurally
(the form-mode constraint is enforced by the request builder). -/
def classifyParam (fs : String → Option String) :
    SepKind × String × String → Except HurlError Parameter
  | (.header, key, value) => .ok (.header key value)
  | (.query, key, value) => .ok (.query key value)
  | (.dataField, key, value) => .ok (.dataField key value)
  | (.fileUpload, key, value) => .ok (.fileUpload key value)
  | (.dataFromFile, key, path) =>
    match fs path with
    | some _ => .ok (.dataFieldFromFile key path)
    | none => .error (.fileReadError path)
  | (.rawJson, key, text) =>
    match parseJson text with
    | some j => .ok (.rawJsonField key j)
    | none => .error (.invalidJson key)
  | (.rawJsonFromFile, key, path) =>
    match fs path with
    | none => .error (.fileReadError path)
    | some text =>
      match parseJson text with
      | some _ => .ok (.rawJsonFieldFromFile key path)
      | none => .error (.invalidJson key)

/-- Modelled from the spec: `parse_param` as grammar then classifier. -/
def parse_param (fs : String → Option String) (s : String) :
    Except HurlError Parameter :=
  match parse_param_split s with
  | .error e => .error e
  | .ok triple => classifyParam fs triple

/-! ## Request builder (spec §3, §4.3) -/

/-- A body-map value: a literal string field or genuine JSON. -/
inductive FieldVal where
  | str (s : String) : FieldVal
  | json (j : Json) : FieldVal

/-- Modelled from the spec: the §3 `RequestSpec` — method, URL, header
map (insertion order, last write wins), multi-valued query map, the
body map, the multipart file parts, and the form flag. -/
structure RequestSpec where
  method : String
  url : String
  headers : List (String × String)
  query : List (String × String)
  bodyMap : List (String × FieldVal)
  fileParts : List (String × String)
  form : Bool

/-- Insert preserving insertion order, overwriting an earlier entry
with the same key (last write wins). -/
def insertLastWins {β : Type} (k : String) (v : β) :
    List (String × β) → List (String × β)
  | [] => [(k, v)]
  | (k', v') :: rest =>
    if k' = k then (k, v) :: rest
    else (k', v') :: insertLastWins k v rest

/-- Modelled from the spec: one step of the §4.3 fold.  Headers are
last-write-wins, queries multi-valued, the four data kinds go to the
body map last-write-wins (`RawJsonField*` as genuine JSON, the others
as strings), and `FileUpload` is a file part in form mode but the hard
error `FileUploadRequiresForm` otherwise.  File contents are resolved
through `fs`; the classifier has already checked readability, so a
missing file falls back to the empty string. -/
def buildStep (fs : String → Option String) (form : Bool)
    (acc : RequestSpec) : Parameter → Except HurlError RequestSpec
  | .header k v => .ok { acc with headers := insertLastWins k v acc.headers }
  | .query k v => .ok { acc with query := acc.query ++ [(k, v)] }
  | .dataField k v =>
    .ok { acc with bodyMap := insertLastWins k (.str v) acc.bodyMap }
  | .dataFieldFromFile k path =>
    .ok { acc with bodyMap := insertLastWins k (.str ((fs path).getD "")) acc.bodyMap }
  | .rawJsonField k j =>
    .ok { acc with bodyMap := insertLastWins k (.json j) acc.bodyMap }
  | .rawJsonFieldFromFile k path =>
    .ok { acc with bodyMap :=
      insertLastWins k (.json ((parseJson ((fs path).getD "")).getD .null)) acc.bodyMap }
  | .fileUpload k filename =>
    if form then .ok { acc with fileParts := acc.fileParts ++ [(k, filename)] }
    else .error .fileUploadRequiresForm

def emptyRequest (method url : String) (form : Bool) : RequestSpec :=
  ⟨method, url, [], [], [], [], form⟩

/-- The fold of `buildStep` over the parameter sequence. -/
def buildGo (fs : String → Option String) (form : Bool) :
    RequestSpec → List Parameter → Except HurlError RequestSpec
  | acc, [] => .ok acc
  | acc, p :: rest =>
    match buildStep fs form acc p with
    | .error e => .error e
    | .ok acc' => buildGo fs form acc' rest

/-- Modelled from the spec: fold an ordered parameter sequence into a
`RequestSpec`. -/
def buildRequest (fs : String → Option String) (form : Bool)
    (method url : String) (params : List Parameter) :
    Except HurlError RequestSpec :=
  buildGo fs form (emptyRequest method url form) params

/-! ## Method selection (`main` in `src/wasm/hurl/src/main.rs`)

`let has_data = app.parameters.iter().any(|p| p.is_data());
 let method = if has_data { POST } else { GET };` -/

def chooseMethod (params : List Parameter) : String :=
  if params.any Parameter.is_data then "POST" else "GET"

/-- The header-name part of a rendered `Name: value` line. -/
def lineName (line : String) : String :=
  String.mk (line.data.takeWhile (· ≠ ':'))

/-! ## Lemmas -/

theorem charListLe_iff_lex (x : List Char) :
    ∀ y, charListLe x y = true ↔ (List.Lex (· < ·) x y ∨ x = y) := by
  induction x with
  | nil =>
    intro y
    cases y with
    | nil => simp [charListLe]
    | cons b bs => simp [charListLe, List.Lex.nil]
  | cons a as ih =>
    intro y
    cases y with
    | nil =>
      simp only [charListLe]
      constructor
      · intro h; cases h
      · rintro (h | h)
        · exact absurd h (List.Lex.not_nil_right _ _)
        · cases h
    | cons b bs =>
      rcases lt_trichotomy a b with hab | hab | hab
      · simp only [charListLe, if_pos hab, true_iff]
        exact Or.inl (List.Lex.rel hab)
      · subst hab
        have h1 : ¬ a < a := lt_irrefl a
        simp only [charListLe, if_neg h1]
        rw [ih bs]
        constructor
        · rintro (h | h)
          · exact Or.inl (List.Lex.cons h)
          · subst h; exact Or.inr rfl
        · rintro (h | h)
          · exact Or.inl (List.Lex.cons_iff.mp h)
          · cases h; exact Or.inr rfl
      · have h1 : ¬ a < b := lt_asymm hab
        have h2 : b < a := hab
        simp only [charListLe, if_neg h1, if_pos h2, Bool.false_eq_true, false_iff]
        rintro (h | h)
        · cases h with
          | cons h' => exact absurd rfl (ne_of_gt hab)
          | rel h' => exact absurd h' h1
        · cases h; exact absurd rfl (ne_of_gt hab)

theorem charListLe_iff_le (x y : List Char) :
    charListLe x y = true ↔ x ≤ y := by
  rw [charListLe_iff_lex, le_iff_lt_or_eq]
  exact Iff.rfl

theorem strLeP_iff (a b : String) : strLeP a b ↔ a.data ≤ b.data := by
  unfold strLeP strLe
  exact charListLe_iff_le a.data b.data

theorem string_data_inj {a b : String} (h : a.data = b.data) : a = b := by
  cases a; cases b; cases h; rfl

instance : IsTotal String strLeP :=
  ⟨fun a b => by
    rw [strLeP_iff, strLeP_iff]
    exact le_total a.data b.data⟩

instance : IsTrans String strLeP :=
  ⟨fun a b c hab hbc => by
    rw [strLeP_iff] at *
    exact le_trans hab hbc⟩

instance : IsAntisymm String strLeP :=
  ⟨fun a b hab hba => by
    rw [strLeP_iff] at *
    exact string_data_inj (le_antisymm hab hba)⟩

/-- `findSub` finds an occurrence: the pattern is a prefix of the
suffix starting at the returned index. -/
theorem findSub_some_isPrefix (p : List Char) :
    ∀ cs i, findSub p cs = some i → p.isPrefixOf (cs.drop i) = true := by
  intro cs
  induction cs with
  | nil =>
    intro i h
    simp only [findSub] at h
    split at h
    · cases h; simpa using ‹p.isPrefixOf [] = true›
    · cases h
  | cons c cs ih =>
    intro i h
    simp only [findSub] at h
    split at h
    · cases h; simpa using ‹p.isPrefixOf (c :: cs) = true›
    · obtain ⟨i', hf, hi⟩ := Option.map_eq_some'.mp h
      subst hi
      simpa [List.drop_succ_cons] using ih i' hf

/-- `findSub` finds the first occurrence: the pattern is not a prefix
of any earlier suffix. -/
theorem findSub_some_first (p : List Char) :
    ∀ cs i, findSub p cs = some i →
      ∀ j, j < i → p.isPrefixOf (cs.drop j) = false := by
  intro cs
  induction cs with
  | nil =>
    intro i h j hj
    simp only [findSub] at h
    split at h
    · cases h; omega
    · cases h
  | cons c cs ih =>
    intro i h j hj
    simp only [findSub] at h
    split at h
    · cases h; omega
    · obtain ⟨i', hf, hi⟩ := Option.map_eq_some'.mp h
      subst hi
      cases j with
      | zero => simpa using Bool.of_not_eq_true ‹¬p.isPrefixOf (c :: cs) = true›
      | succ j' => simpa [List.drop_succ_cons] using ih i' hf j' (by omega)

/-- If `findSub` fails there is no occurrence at all. -/
theorem findSub_none (p : List Char) :
    ∀ cs, findSub p cs = none → ∀ j, p.isPrefixOf (cs.drop j) = false := by
  intro cs
  induction cs with
  | nil =>
    intro h j
    simp only [findSub] at h
    split at h
    · cases h
    · simpa using Bool.of_not_eq_true ‹¬p.isPrefixOf [] = true›
  | cons c cs ih =>
    intro h j
    simp only [findSub] at h
    split at h
    · cases h
    · have h' : findSub p cs = none := by
        cases hf : findSub p cs with
        | none => rfl
        | some m => rw [hf] at h; cases h
      cases j with
      | zero => simpa using Bool.of_not_eq_true ‹¬p.isPrefixOf (c :: cs) = true›
      | succ j' => simpa using ih h' j'

/-- A nonzero index returned by `findSub` implies a nonempty input. -/
theorem findSub_pos_ne_nil (p : List Char) (cs : List Char) (i : Nat)
    (h : findSub p cs = some i) (hi : i ≠ 0) : cs ≠ [] := by
  intro hnil
  subst hnil
  simp only [findSub] at h
  split at h
  · cases h; exact hi rfl
  · cases h

/-- `selectSepAux` returns the first table entry whose separator
occurs: the entries before it in the table have no occurrence. -/
theorem selectSepAux_some :
    ∀ (table : List (String × SepKind)) (cs : List Char) sep kind idx,
      selectSepAux table cs = some (sep, kind, idx) →
      ∃ pre post, table = pre ++ (sep, kind) :: post ∧
        (∀ q ∈ pre, findSub q.1.data cs = none) ∧
        findSub sep.data cs = some idx := by
  intro table
  induction table with
  | nil => intro cs sep kind idx h; cases h
  | cons q rest ih =>
    intro cs sep kind idx h
    match q with
    | (s₀, k₀) =>
      simp only [selectSepAux] at h
      cases hf : findSub s₀.data cs with
      | some i =>
        rw [hf] at h
        cases h
        exact ⟨[], rest, rfl, by simp, hf⟩
      | none =>
        rw [hf] at h
        obtain ⟨pre, post, heq, hpre, hfind⟩ := ih cs sep kind idx h
        refine ⟨(s₀, k₀) :: pre, post, by simp [heq], ?_, hfind⟩
        intro q hq
        cases hq with
        | head => exact hf
        | tail _ hq' => exact hpre q hq'

/-- If no table separator occurs, `selectSepAux` fails. -/
theorem selectSepAux_none :
    ∀ (table : List (String × SepKind)) (cs : List Char),
      (∀ q ∈ table, findSub q.1.data cs = none) →
      selectSepAux table cs = none := by
  intro table
  induction table with
  | nil => intro cs _; rfl
  | cons q rest ih =>
    intro cs h
    match q with
    | (s₀, k₀) =>
      simp only [selectSepAux]
      rw [h (s₀, k₀) (List.mem_cons_self _ _)]
      exact ih cs (fun q hq => h q (List.mem_cons_of_mem _ hq))


/-- Equation: classification when the selected separator is at a
nonzero index. -/
theorem parse_param_split_eq_ok {s sep : String} {kind : SepKind} {idx : Nat}
    (hsel : selectSep s.data = some (sep, kind, idx)) (hidx : idx ≠ 0) :
    parse_param_split s = .ok (kind, String.mk (s.data.take idx),
      String.mk (s.data.drop (idx + sep.data.length))) := by
  unfold parse_param_split
  rw [hsel]
  simp [hidx]

/-- Equation: classification when the selected separator is at index 0
(empty key). -/
theorem parse_param_split_eq_err0 {s sep : String} {kind : SepKind}
    (hsel : selectSep s.data = some (sep, kind, 0)) :
    parse_param_split s = .error (.malformedParameter s) := by
  unfold parse_param_split
  rw [hsel]
  rfl

/-- Equation: classification when no separator occurs. -/
theorem parse_param_split_eq_none {s : String}
    (hsel : selectSep s.data = none) :
    parse_param_split s = .error (.malformedParameter s) := by
  unfold parse_param_split
  rw [hsel]

/-! ## Claims -/

/-- C1: for every argument string, the separator grammar classifies it
by scanning for the candidate separators in the precedence order
`:=@`, `:=`, `=@`, `==`, `@`, `:`, `=`: the separator used is the
first in that order with an occurrence in the argument (no
earlier-precedence separator occurs anywhere in it), the split is at
that separator's first occurrence, the key is the text before it and
the value the text after it; in particular `"foo:=bar"` is classified
as a raw-JSON field with key `"foo"` (never as a header with key
`"foo:"` nor as a data field). -/
theorem sep_grammar_longest_first :
    (∀ (s : String) (kind : SepKind) (key val : String),
      parse_param_split s = .ok (kind, key, val) →
      ∃ sep idx pre post,
        sepTable = pre ++ (sep, kind) :: post ∧
        (∀ q ∈ pre, ∀ j, q.1.data.isPrefixOf (s.data.drop j) = false) ∧
        sep.data.isPrefixOf (s.data.drop idx) = true ∧
        (∀ j, j < idx → sep.data.isPrefixOf (s.data.drop j) = false) ∧
        key = String.mk (s.data.take idx) ∧
        val = String.mk (s.data.drop (idx + sep.data.length))) ∧
    parse_param_split "foo:=bar" = .ok (.rawJson, "foo", "bar") := by
  constructor
  · intro s kind key val h
    cases hsel : selectSep s.data with
    | none => rw [parse_param_split_eq_none hsel] at h; cases h
    | some t =>
      obtain ⟨sep, kind', idx⟩ := t
      by_cases hidx : idx = 0
      · subst hidx
        rw [parse_param_split_eq_err0 hsel] at h
        cases h
      · rw [parse_param_split_eq_ok hsel hidx] at h
        injection h with h
        simp only [Prod.mk.injEq] at h
        obtain ⟨hk, hkey, hval⟩ := h
        subst hk
        obtain ⟨pre, post, heq, hpre, hfind⟩ :=
          selectSepAux_some sepTable s.data sep kind' idx hsel
        refine ⟨sep, idx, pre, post, heq, ?_, ?_, ?_, hkey.symm, hval.symm⟩
        · intro q hq j
          exact findSub_none q.1.data s.data (hpre q hq) j
        · exact findSub_some_isPrefix sep.data s.data idx hfind
        · intro j hj
          exact findSub_some_first sep.data s.data idx hfind j hj
  · rfl

/-- Witness for C1 at the concrete argument `"foo:=bar"`. -/
theorem sep_grammar_longest_first_witness :
    ∃ sep idx pre post,
      sepTable = pre ++ (sep, SepKind.rawJson) :: post ∧
      (∀ q ∈ pre, ∀ j,
        q.1.data.isPrefixOf (("foo:=bar" : String).data.drop j) = false) ∧
      sep.data.isPrefixOf (("foo:=bar" : String).data.drop idx) = true ∧
      (∀ j, j < idx →
        sep.data.isPrefixOf (("foo:=bar" : String).data.drop j) = false) ∧
      "foo" = String.mk (("foo:=bar" : String).data.take idx) ∧
      "bar" = String.mk (("foo:=bar" : String).data.drop (idx + sep.data.length)) :=
  sep_grammar_longest_first.1 "foo:=bar" .rawJson "foo" "bar" (by rfl)

/-- C6: the separator grammar is total with explicit failure: every
argument either classifies into exactly one kind/key/value triple or
fails with `MalformedParameter` carrying the offending argument; an
argument in which none of the seven separators occurs fails that way,
and a successful classification never has an empty key. -/
theorem grammar_total_explicit_failure :
    (∀ s : String,
      (∃ kind key val, parse_param_split s = .ok (kind, key, val)) ∨
      parse_param_split s = .error (.malformedParameter s)) ∧
    (∀ s : String, (∀ q ∈ sepTable, findSub q.1.data s.data = none) →
      parse_param_split s = .error (.malformedParameter s)) ∧
    (∀ s kind key val, parse_param_split s = .ok (kind, key, val) → key ≠ "") := by
  refine ⟨?_, ?_, ?_⟩
  · intro s
    cases hsel : selectSep s.data with
    | none => exact Or.inr (parse_param_split_eq_none hsel)
    | some t =>
      obtain ⟨sep, kind, idx⟩ := t
      by_cases hidx : idx = 0
      · subst hidx
        exact Or.inr (parse_param_split_eq_err0 hsel)
      · exact Or.inl ⟨_, _, _, parse_param_split_eq_ok hsel hidx⟩
  · intro s h
    exact parse_param_split_eq_none (selectSepAux_none sepTable s.data h)
  · intro s kind key val h hkey
    cases hsel : selectSep s.data with
    | none => rw [parse_param_split_eq_none hsel] at h; cases h
    | some t =>
      obtain ⟨sep, kind', idx⟩ := t
      by_cases hidx : idx = 0
      · subst hidx
        rw [parse_param_split_eq_err0 hsel] at h
        cases h
      · rw [parse_param_split_eq_ok hsel hidx] at h
        injection h with h
        simp only [Prod.mk.injEq] at h
        obtain ⟨hk, hkeyeq, hval⟩ := h
        obtain ⟨pre, post, heq, hpre, hfind⟩ :=
          selectSepAux_some sepTable s.data sep kind' idx hsel
        have hne : s.data ≠ [] := findSub_pos_ne_nil sep.data s.data idx hfind hidx
        have hdata : s.data.take idx = [] := by
          have := congrArg String.data (hkeyeq.trans hkey)
          simpa using this
        rw [List.take_eq_nil_iff] at hdata
        cases hdata with
        | inl h0 => exact hidx h0
        | inr hnil => exact hne hnil

/-- Witness for C6 at the concrete arguments `"nosep"` and `"foo:bar"`. -/
theorem grammar_total_explicit_failure_witness :
    parse_param_split "nosep" = .error (.malformedParameter "nosep") ∧
    "foo" ≠ "" :=
  ⟨grammar_total_explicit_failure.2.1 "nosep" (by decide),
   grammar_total_explicit_failure.2.2 "foo:bar" .header "foo" "bar" (by rfl)⟩

/-- C3: the body stage never raises an error: it is a total function
that pretty-prints the sorted-key map when the body parses as a JSON
object and otherwise prints the raw decoded text unmodified; in
particular the body starting with an unmatched brace, "\x7bnot json", fails to parse and is printed
verbatim. -/
theorem body_stage_total_fallback :
    (∀ body : String, fromStrOrdered body = none → bodyOut body = body) ∧
    (∀ (body : String) fields, fromStrOrdered body = some fields →
      bodyOut body = toStringPretty fields) ∧
    (∀ r : Response, fromStrOrdered r.body = none →
      handle_response r = statusLine r ++ String.intercalate "\n" (sortedLines r)
        ++ "\n" ++ r.body ++ "\n") ∧
    fromStrOrdered "\x7bnot json" = none := by
  refine ⟨?_, ?_, ?_, ?_⟩
  · intro body h
    unfold bodyOut
    rw [h]
  · intro body fields h
    unfold bodyOut
    rw [h]
  · intro r h
    unfold handle_response bodyOut
    rw [h]
  · rfl

/-- Witness for C3 at the concrete non-JSON body. -/
theorem body_stage_total_fallback_witness :
    handle_response ⟨"HTTP/1.1", 200, some "OK", [], none, "\x7bnot json"⟩
      = statusLine ⟨"HTTP/1.1", 200, some "OK", [], none, "\x7bnot json"⟩
        ++ String.intercalate "\n"
            (sortedLines ⟨"HTTP/1.1", 200, some "OK", [], none, "\x7bnot json"⟩)
        ++ "\n" ++ "\x7bnot json" ++ "\n" :=
  body_stage_total_fallback.2.2.1
    ⟨"HTTP/1.1", 200, some "OK", [], none, "\x7bnot json"⟩ (by rfl)

/-- C9: the pretty-printing branch requires a top-level JSON object:
any body that parses as a JSON value other than an object fails the
`OrderedJson` conversion, so the formatter takes the fallback branch
and prints the raw text; e.g. the valid-JSON array body `"[1, 2, 3]"`
is printed verbatim. -/
theorem body_pretty_only_object :
    (∀ (s : String) (v : Json), parseJson s = some v →
      (∀ fields, v ≠ .obj fields) → fromStrOrdered s = none) ∧
    (∀ s : String, fromStrOrdered s = none → bodyOut s = s) ∧
    parseJson "[1, 2, 3]" = some (.arr [.num "1", .num "2", .num "3"]) ∧
    bodyOut "[1, 2, 3]" = "[1, 2, 3]" := by
  refine ⟨?_, ?_, ?_, ?_⟩
  · intro s v h hv
    unfold fromStrOrdered
    rw [h]
    cases v with
    | obj fields => exact absurd rfl (hv fields)
    | null => rfl
    | bool b => rfl
    | num lit => rfl
    | str t => rfl
    | arr items => rfl
  · intro s h
    unfold bodyOut
    rw [h]
  · rfl
  · rfl

/-- Witness for C9 at the concrete body `"[1, 2, 3]"`. -/
theorem body_pretty_only_object_witness :
    fromStrOrdered "[1, 2, 3]" = none :=
  body_pretty_only_object.1 "[1, 2, 3]"
    (.arr [.num "1", .num "2", .num "3"]) (by rfl)
    (fun _ h => Json.noConfusion h)

/-- C4: the reported content length is the transport's decoded-length
value when present and the byte length of the decoded body text
otherwise, and it is appended to the header list as a synthesized
`Content-Length` entry before sorting (so it is present both in the
unsorted and in the sorted line list). -/
theorem content_length_reporting :
    (∀ (r : Response) (len : Nat), r.contentLength = some len →
      contentLengthVal r = len) ∧
    (∀ r : Response, r.contentLength = none →
      contentLengthVal r = utf8Len r.body) ∧
    (∀ r : Response,
      ("Content-Length: " ++ toString (contentLengthVal r)) ∈ allLines r) ∧
    (∀ r : Response,
      ("Content-Length: " ++ toString (contentLengthVal r)) ∈ sortedLines r) := by
  refine ⟨?_, ?_, ?_, ?_⟩
  · intro r len h
    unfold contentLengthVal
    rw [h]
  · intro r h
    unfold contentLengthVal
    rw [h]
  · intro r
    unfold allLines
    exact List.mem_append_right _ (List.mem_singleton.mpr rfl)
  · intro r
    unfold sortedLines
    refine (List.perm_insertionSort strLeP (allLines r)).mem_iff.mpr ?_
    unfold allLines
    exact List.mem_append_right _ (List.mem_singleton.mpr rfl)

/-- Witness for C4 at concrete responses exercising both the
transport-reported and the fallback content length. -/
theorem content_length_reporting_witness :
    contentLengthVal ⟨"HTTP/1.1", 200, some "OK", [], some 5, "ab"⟩ = 5 ∧
    contentLengthVal ⟨"HTTP/1.1", 200, some "OK", [], none, "ab"⟩
      = utf8Len "ab" :=
  ⟨content_length_reporting.1 ⟨"HTTP/1.1", 200, some "OK", [], some 5, "ab"⟩ 5 rfl,
   content_length_reporting.2.1 ⟨"HTTP/1.1", 200, some "OK", [], none, "ab"⟩ rfl⟩

/-- C10: the synthesized `Content-Length` entry is appended for every
response, so when the wire headers already carry a `content-length`
header the printed header section contains two `Content-Length` lines
(the title-cased wire one and the synthesized one). -/
theorem content_length_duplicated :
    ∀ (r : Response) (v : String), ("content-length", v) ∈ r.headers →
      2 ≤ (sortedLines r).countP
        (fun line => "Content-Length: ".data.isPrefixOf line.data) := by
  intro r v hmem
  unfold sortedLines
  rw [(List.perm_insertionSort strLeP (allLines r)).countP_eq]
  unfold allLines
  rw [List.countP_append]
  have hline : (niceKey "content-length" ++ ": " ++ v) ∈ headerLines r := by
    unfold headerLines
    exact List.mem_map_of_mem _ hmem
  have hpred : ("Content-Length: ".data.isPrefixOf
      (niceKey "content-length" ++ ": " ++ v).data) = true := by
    have hdata : (niceKey "content-length" ++ ": " ++ v).data
        = "Content-Length: ".data ++ v.data := rfl
    rw [hdata]
    exact List.isPrefixOf_iff_prefix.mpr (List.prefix_append _ _)
  have h1 : 0 < (headerLines r).countP
      (fun line => "Content-Length: ".data.isPrefixOf line.data) :=
    List.countP_pos_iff.mpr ⟨_, hline, hpred⟩
  have h2 : (["Content-Length: " ++ toString (contentLengthVal r)]).countP
      (fun line => "Content-Length: ".data.isPrefixOf line.data) = 1 := by
    rw [List.countP_singleton, if_pos]
    exact List.isPrefixOf_iff_prefix.mpr
      (show "Content-Length: ".data
          <+: "Content-Length: ".data ++ (toString (contentLengthVal r)).data
        from List.prefix_append _ _)
  omega

/-- Witness for C10 at a concrete response whose wire headers already
contain a `content-length` header. -/
theorem content_length_duplicated_witness :
    2 ≤ (sortedLines ⟨"HTTP/1.1", 200, some "OK",
        [("content-length", "3")], some 3, ""⟩).countP
      (fun line => "Content-Length: ".data.isPrefixOf line.data) :=
  content_length_duplicated
    ⟨"HTTP/1.1", 200, some "OK", [("content-length", "3")], some 3, ""⟩
    "3" (List.mem_singleton.mpr rfl)

theorem insertLastWins_ne_nil {β : Type} (k : String) (v : β) :
    ∀ l : List (String × β), insertLastWins k v l ≠ [] := by
  intro l
  cases l with
  | nil => simp [insertLastWins]
  | cons p rest =>
    obtain ⟨k', v'⟩ := p
    simp only [insertLastWins]
    split <;> simp

/-- A fold over parameters without data fields leaves the body map
unchanged. -/
theorem buildGo_bodyMap_no_data (fs : String → Option String) (form : Bool) :
    ∀ (params : List Parameter) (acc spec : RequestSpec),
      params.any Parameter.is_data = false →
      buildGo fs form acc params = .ok spec → spec.bodyMap = acc.bodyMap := by
  intro params
  induction params with
  | nil =>
    intro acc spec _ h
    injection h with h
    rw [← h]
  | cons p rest ih =>
    intro acc spec hany h
    rw [List.any_cons] at hany
    rcases Bool.or_eq_false_iff.mp hany with ⟨hp, hrest⟩
    cases p with
    | header k v =>
      simp only [buildGo, buildStep] at h
      have hres := ih _ spec hrest h
      exact hres
    | query k v =>
      simp only [buildGo, buildStep] at h
      have hres := ih _ spec hrest h
      exact hres
    | fileUpload k fn =>
      cases form with
      | false => simp [buildGo, buildStep] at h
      | true =>
        simp only [buildGo, buildStep, reduceIte] at h
        have hres := ih _ spec hrest h
        exact hres
    | dataField k v => simp [Parameter.is_data] at hp
    | dataFieldFromFile k fn => simp [Parameter.is_data] at hp
    | rawJsonField k j => simp [Parameter.is_data] at hp
    | rawJsonFieldFromFile k fn => simp [Parameter.is_data] at hp

/-- The fold never empties a nonempty body map. -/
theorem buildGo_bodyMap_mono (fs : String → Option String) (form : Bool) :
    ∀ (params : List Parameter) (acc spec : RequestSpec),
      buildGo fs form acc params = .ok spec →
      acc.bodyMap ≠ [] → spec.bodyMap ≠ [] := by
  intro params
  induction params with
  | nil =>
    intro acc spec h hne
    injection h with h
    rw [← h]
    exact hne
  | cons p rest ih =>
    intro acc spec h hne
    cases p with
    | header k v =>
      simp only [buildGo, buildStep] at h
      exact ih _ spec h hne
    | query k v =>
      simp only [buildGo, buildStep] at h
      exact ih _ spec h hne
    | fileUpload k fn =>
      cases form with
      | false => simp [buildGo, buildStep] at h
      | true =>
        simp only [buildGo, buildStep, reduceIte] at h
        exact ih _ spec h hne
    | dataField k v =>
      simp only [buildGo, buildStep] at h
      exact ih _ spec h (insertLastWins_ne_nil _ _ _)
    | dataFieldFromFile k fn =>
      simp only [buildGo, buildStep] at h
      exact ih _ spec h (insertLastWins_ne_nil _ _ _)
    | rawJsonField k j =>
      simp only [buildGo, buildStep] at h
      exact ih _ spec h (insertLastWins_ne_nil _ _ _)
    | rawJsonFieldFromFile k fn =>
      simp only [buildGo, buildStep] at h
      exact ih _ spec h (insertLastWins_ne_nil _ _ _)

/-- A fold over parameters containing a data field yields a nonempty
body map. -/
theorem buildGo_bodyMap_data (fs : String → Option String) (form : Bool) :
    ∀ (params : List Parameter) (acc spec : RequestSpec),
      params.any Parameter.is_data = true →
      buildGo fs form acc params = .ok spec → spec.bodyMap ≠ [] := by
  intro params
  induction params with
  | nil => intro acc spec hany _; simp at hany
  | cons p rest ih =>
    intro acc spec hany h
    rw [List.any_cons] at hany
    cases p with
    | header k v =>
      simp only [buildGo, buildStep] at h
      exact ih _ spec (by simpa [Parameter.is_data] using hany) h
    | query k v =>
      simp only [buildGo, buildStep] at h
      exact ih _ spec (by simpa [Parameter.is_data] using hany) h
    | fileUpload k fn =>
      cases form with
      | false => simp [buildGo, buildStep] at h
      | true =>
        simp only [buildGo, buildStep, reduceIte] at h
        exact ih _ spec (by simpa [Parameter.is_data] using hany) h
    | dataField k v =>
      simp only [buildGo, buildStep] at h
      exact buildGo_bodyMap_mono fs form rest _ spec h (insertLastWins_ne_nil _ _ _)
    | dataFieldFromFile k fn =>
      simp only [buildGo, buildStep] at h
      exact buildGo_bodyMap_mono fs form rest _ spec h (insertLastWins_ne_nil _ _ _)
    | rawJsonField k j =>
      simp only [buildGo, buildStep] at h
      exact buildGo_bodyMap_mono fs form rest _ spec h (insertLastWins_ne_nil _ _ _)
    | rawJsonFieldFromFile k fn =>
      simp only [buildGo, buildStep] at h
      exact buildGo_bodyMap_mono fs form rest _ spec h (insertLastWins_ne_nil _ _ _)

/-- Without form mode, a `FileUpload` anywhere in the parameter list
makes the fold fail with `FileUploadRequiresForm`. -/
theorem buildGo_fileUpload_err (fs : String → Option String) :
    ∀ (params : List Parameter) (acc : RequestSpec) (key fn : String),
      Parameter.fileUpload key fn ∈ params →
      buildGo fs false acc params = .error .fileUploadRequiresForm := by
  intro params
  induction params with
  | nil => intro acc key fn h; cases h
  | cons p rest ih =>
    intro acc key fn h
    cases p with
    | fileUpload k2 f2 => rfl
    | header k v =>
      cases h with
      | tail _ hm =>
        simp only [buildGo, buildStep]
        exact ih _ key fn hm
    | query k v =>
      cases h with
      | tail _ hm =>
        simp only [buildGo, buildStep]
        exact ih _ key fn hm
    | dataField k v =>
      cases h with
      | tail _ hm =>
        simp only [buildGo, buildStep]
        exact ih _ key fn hm
    | dataFieldFromFile k fn2 =>
      cases h with
      | tail _ hm =>
        simp only [buildGo, buildStep]
        exact ih _ key fn hm
    | rawJsonField k j =>
      cases h with
      | tail _ hm =>
        simp only [buildGo, buildStep]
        exact ih _ key fn hm
    | rawJsonFieldFromFile k fn2 =>
      cases h with
      | tail _ hm =>
        simp only [buildGo, buildStep]
        exact ih _ key fn hm

/-- The fold never removes file parts. -/
theorem buildGo_fileParts_mono (fs : String → Option String) (form : Bool) :
    ∀ (params : List Parameter) (acc spec : RequestSpec)
      (kv : String × String),
      buildGo fs form acc params = .ok spec →
      kv ∈ acc.fileParts → kv ∈ spec.fileParts := by
  intro params
  induction params with
  | nil =>
    intro acc spec kv h hkv
    injection h with h
    rw [← h]
    exact hkv
  | cons p rest ih =>
    intro acc spec kv h hkv
    cases p with
    | header k v =>
      simp only [buildGo, buildStep] at h
      exact ih _ spec kv h hkv
    | query k v =>
      simp only [buildGo, buildStep] at h
      exact ih _ spec kv h hkv
    | dataField k v =>
      simp only [buildGo, buildStep] at h
      exact ih _ spec kv h hkv
    | dataFieldFromFile k fn =>
      simp only [buildGo, buildStep] at h
      exact ih _ spec kv h hkv
    | rawJsonField k j =>
      simp only [buildGo, buildStep] at h
      exact ih _ spec kv h hkv
    | rawJsonFieldFromFile k fn =>
      simp only [buildGo, buildStep] at h
      exact ih _ spec kv h hkv
    | fileUpload k fn =>
      cases form with
      | false => simp [buildGo, buildStep] at h
      | true =>
        simp only [buildGo, buildStep, reduceIte] at h
        exact ih _ spec kv h (List.mem_append_left _ hkv)

/-- With form mode, every `FileUpload` in the parameter list ends up as
a file part of the resulting request. -/
theorem buildGo_fileUpload_mem (fs : String → Option String) :
    ∀ (params : List Parameter) (acc spec : RequestSpec) (key fn : String),
      Parameter.fileUpload key fn ∈ params →
      buildGo fs true acc params = .ok spec →
      (key, fn) ∈ spec.fileParts := by
  intro params
  induction params with
  | nil => intro acc spec key fn h _; cases h
  | cons p rest ih =>
    intro acc spec key fn h hgo
    cases p with
    | fileUpload k2 f2 =>
      simp only [buildGo, buildStep, reduceIte] at hgo
      cases h with
      | head =>
        exact buildGo_fileParts_mono fs true rest _ spec (key, fn) hgo
          (List.mem_append_right _ (List.mem_singleton.mpr rfl))
      | tail _ hm =>
        exact ih _ spec key fn hm hgo
    | header k v =>
      simp only [buildGo, buildStep] at hgo
      cases h with
      | tail _ hm => exact ih _ spec key fn hm hgo
    | query k v =>
      simp only [buildGo, buildStep] at hgo
      cases h with
      | tail _ hm => exact ih _ spec key fn hm hgo
    | dataField k v =>
      simp only [buildGo, buildStep] at hgo
      cases h with
      | tail _ hm => exact ih _ spec key fn hm hgo
    | dataFieldFromFile k fn2 =>
      simp only [buildGo, buildStep] at hgo
      cases h with
      | tail _ hm => exact ih _ spec key fn hm hgo
    | rawJsonField k j =>
      simp only [buildGo, buildStep] at hgo
      cases h with
      | tail _ hm => exact ih _ spec key fn hm hgo
    | rawJsonFieldFromFile k fn2 =>
      simp only [buildGo, buildStep] at hgo
      cases h with
      | tail _ hm => exact ih _ spec key fn hm hgo

/-- C5: when no explicit method subcommand is given, the request method
is GET exactly when the built request's body map is empty (no data
parameters among the arguments), and POST otherwise. -/
theorem method_get_iff_body_empty :
    ∀ (fs : String → Option String) (form : Bool) (method url : String)
      (params : List Parameter) (spec : RequestSpec),
      buildRequest fs form method url params = .ok spec →
      (chooseMethod params = "GET" ↔ spec.bodyMap = []) := by
  intro fs form method url params spec h
  unfold buildRequest at h
  unfold chooseMethod
  cases hany : params.any Parameter.is_data with
  | false =>
    rw [if_neg (by simp [hany])]
    have hb := buildGo_bodyMap_no_data fs form params _ spec hany h
    simp [hb, emptyRequest]
  | true =>
    rw [if_pos (by simp [hany])]
    have hb := buildGo_bodyMap_data fs form params _ spec hany h
    constructor
    · intro hg; exact absurd hg (by decide)
    · intro he; exact absurd he hb

/-- Witness for C5 with one data parameter (POST, nonempty body map)
and with none (GET, empty body map). -/
theorem method_get_iff_body_empty_witness :
    (chooseMethod [.dataField "foo" "bar"] = "GET" ↔
      (⟨"x", "u", [], [], [("foo", FieldVal.str "bar")], [], false⟩ :
        RequestSpec).bodyMap = []) ∧
    (chooseMethod [.header "a" "b"] = "GET" ↔
      (⟨"x", "u", [("a", "b")], [], [], [], false⟩ : RequestSpec).bodyMap = []) :=
  ⟨method_get_iff_body_empty (fun _ => none) false "x" "u"
      [.dataField "foo" "bar"] _ (by rfl),
   method_get_iff_body_empty (fun _ => none) false "x" "u"
      [.header "a" "b"] _ (by rfl)⟩

/-- C7: a `FileUpload` parameter classifies successfully on its own,
but building a request containing it without form mode fails with
`FileUploadRequiresForm` at build time, while with form mode enabled it
becomes a multipart file part named by its key. -/
theorem file_upload_form_mode :
    (∀ fs : String → Option String,
      parse_param fs "key@photo.png" = .ok (.fileUpload "key" "photo.png")) ∧
    (∀ (fs : String → Option String) (method url : String)
      (params : List Parameter) (key fn : String),
      Parameter.fileUpload key fn ∈ params →
      buildRequest fs false method url params = .error .fileUploadRequiresForm) ∧
    (∀ (fs : String → Option String) (method url : String)
      (params : List Parameter) (key fn : String) (spec : RequestSpec),
      Parameter.fileUpload key fn ∈ params →
      buildRequest fs true method url params = .ok spec →
      (key, fn) ∈ spec.fileParts) := by
  refine ⟨?_, ?_, ?_⟩
  · intro fs; rfl
  · intro fs method url params key fn hmem
    unfold buildRequest
    exact buildGo_fileUpload_err fs params _ key fn hmem
  · intro fs method url params key fn spec hmem h
    unfold buildRequest at h
    exact buildGo_fileUpload_mem fs params _ spec key fn hmem h

/-- Witness for C7 at the one-parameter list `[key@photo.png]`. -/
theorem file_upload_form_mode_witness :
    buildRequest (fun _ => none) false "GET" "example.com"
        [.fileUpload "key" "photo.png"] = .error .fileUploadRequiresForm ∧
    ("key", "photo.png") ∈ (⟨"GET", "example.com", [], [], [],
        [("key", "photo.png")], true⟩ : RequestSpec).fileParts :=
  ⟨file_upload_form_mode.2.1 (fun _ => none) "GET" "example.com"
      [.fileUpload "key" "photo.png"] "key" "photo.png"
      (List.mem_singleton.mpr rfl),
   file_upload_form_mode.2.2 (fun _ => none) "GET" "example.com"
      [.fileUpload "key" "photo.png"] "key" "photo.png" _
      (List.mem_singleton.mpr rfl) (by rfl)⟩

/-- C8: the pipeline is deterministic as a two-run property: both the
response formatter and the request builder are pure functions of their
inputs, so running either twice on the same input yields identical
results. -/
theorem pipeline_deterministic :
    (∀ r : Response, handle_response r = handle_response r) ∧
    (∀ (fs : String → Option String) (form : Bool) (method url : String)
      (params : List Parameter),
      buildRequest fs form method url params
        = buildRequest fs form method url params) :=
  ⟨fun _ => rfl, fun _ _ _ _ _ => rfl⟩

/-- C2 counterexample: the formatter sorts the rendered `Name: value`
lines as whole strings, which is not a sort by the rewritten header
name: with wire headers `content` and `content-type` the printed order
is `Content-Length`, `Content-Type`, `Content`, although the name
`Content` sorts before `Content-Type`. -/
theorem headers_not_sorted_by_name :
    sortedLines ⟨"HTTP/1.1", 200, some "OK",
        [("content", "x"), ("content-type", "y")], some 1, ""⟩
      = ["Content-Length: 1", "Content-Type: y", "Content: x"] ∧
    ¬ List.Pairwise (fun a b => strLeP (lineName a) (lineName b))
        (sortedLines ⟨"HTTP/1.1", 200, some "OK",
          [("content", "x"), ("content-type", "y")], some 1, ""⟩) := by
  constructor
  · decide
  · decide

/-- C2 (amended): the formatter rewrites each header name to
Title-Case-with-Hyphens and sorts the rendered `Name: value` lines
lexicographically as whole strings (which matches ordering by the
rewritten name except when one name is a proper prefix of another), so
for any permutation of the same wire headers the printed output is
identical; every wire header appears as its rewritten line, and for
wire headers `content-type: text/plain` and `content-length: 3` the
output lists `Content-Length: 3` before `Content-Type: text/plain`. -/
theorem headers_titlecase_sorted_lines :
    (∀ r : Response, List.Sorted strLeP (sortedLines r)) ∧
    (∀ (r r' : Response), r.version = r'.version → r.status = r'.status →
      r.reason = r'.reason → r.contentLength = r'.contentLength →
      r.body = r'.body → r.headers.Perm r'.headers →
      handle_response r = handle_response r') ∧
    (∀ (r : Response) (k v : String), (k, v) ∈ r.headers →
      (niceKey k ++ ": " ++ v) ∈ sortedLines r) ∧
    sortedLines ⟨"HTTP/1.1", 200, some "OK",
        [("content-type", "text/plain"), ("content-length", "3")], some 7, ""⟩
      = ["Content-Length: 3", "Content-Length: 7", "Content-Type: text/plain"] ∧
    niceKey "content-type" = "Content-Type" := by
  refine ⟨?_, ?_, ?_, ?_, ?_⟩
  · intro r
    exact List.sorted_insertionSort strLeP (allLines r)
  · intro r r' hv hs hr hcl hb hperm
    have hall : (allLines r).Perm (allLines r') := by
      unfold allLines headerLines contentLengthVal
      rw [hcl, hb]
      exact (hperm.map _).append_right _
    have hsort : sortedLines r = sortedLines r' := by
      unfold sortedLines
      exact List.eq_of_perm_of_sorted
        ((List.perm_insertionSort _ _).trans
          (hall.trans (List.perm_insertionSort _ _).symm))
        (List.sorted_insertionSort _ _) (List.sorted_insertionSort _ _)
    unfold handle_response statusLine bodyOut
    rw [hv, hs, hr, hb, hsort]
  · intro r k v hmem
    unfold sortedLines
    refine (List.perm_insertionSort strLeP (allLines r)).mem_iff.mpr ?_
    unfold allLines headerLines
    exact List.mem_append_left _ (List.mem_map_of_mem _ hmem)
  · decide
  · rfl

/-- Witness for C2 (amended): the same two wire headers in both
orders produce byte-identical output, and the title-cased
`Content-Type` line is in the printed list. -/
theorem headers_titlecase_sorted_lines_witness :
    handle_response ⟨"HTTP/1.1", 200, some "OK",
        [("content-type", "text/plain"), ("content-length", "3")], some 7, ""⟩
      = handle_response ⟨"HTTP/1.1", 200, some "OK",
        [("content-length", "3"), ("content-type", "text/plain")], some 7, ""⟩ ∧
    ("Content-Type: text/plain") ∈ sortedLines ⟨"HTTP/1.1", 200, some "OK",
        [("content-type", "text/plain"), ("content-length", "3")], some 7, ""⟩ :=
  ⟨headers_titlecase_sorted_lines.2.1
      ⟨"HTTP/1.1", 200, some "OK",
        [("content-type", "text/plain"), ("content-length", "3")], some 7, ""⟩
      ⟨"HTTP/1.1", 200, some "OK",
        [("content-length", "3"), ("content-type", "text/plain")], some 7, ""⟩
      rfl rfl rfl rfl rfl (by decide),
   headers_titlecase_sorted_lines.2.2.1
      ⟨"HTTP/1.1", 200, some "OK",
        [("content-type", "text/plain"), ("content-length", "3")], some 7, ""⟩
      "content-type" "text/plain" (by decide)⟩
